import Mathlib

/-!
Shallow embedding of `blackjax/smc/base.py`: the generic SMC step.

Particle collections (JAX pytrees whose leaves are arrays with a leading
particle dimension) are modelled as binary trees whose leaves are lists;
a list element of type `α` stands for one particle's slice of that leaf
(the trailing dimensions).  Arrays of reals are modelled as `List ℝ`.
JAX's splittable PRNG keys are modelled as natural numbers with a
deterministic split function.  Injected callables (`update_fn`,
`weight_fn`, `resample_fn`) are modelled as Lean function arguments.
-/

namespace BlackjaxSMC

/-- A pytree of arrays: each leaf is an array whose leading dimension is
the particle count; `List α` models that leading dimension, with `α` one
particle's data at the leaf. -/
inductive ArrayTree (α : Type) where
  | leaf : List α → ArrayTree α
  | node : ArrayTree α → ArrayTree α → ArrayTree α

/-- Map a function over every leaf of the tree, preserving the tree shape
(models `jax.tree_map` applied to whole leaves). -/
def treeMap {α β : Type} (f : List α → List β) : ArrayTree α → ArrayTree β
  | .leaf xs => .leaf (f xs)
  | .node l r => .node (treeMap f l) (treeMap f r)

/-- The leaves of the tree in canonical (left-to-right) flattening order:
models `jax.tree_util.tree_flatten(particles)[0]`. -/
def leavesOf {α : Type} : ArrayTree α → List (List α)
  | .leaf xs => [xs]
  | .node l r => leavesOf l ++ leavesOf r

/-- The first leaf in canonical flattening order:
models `jax.tree_util.tree_flatten(particles)[0][0]`. -/
def firstLeaf {α : Type} : ArrayTree α → List α
  | .leaf xs => xs
  | .node l _ => firstLeaf l

/-- The leading dimension of the first leaf, i.e. the inferred particle
count (models `tree_flatten(particles)[0][0].shape[0]`). -/
def numParticles {α : Type} (t : ArrayTree α) : ℕ :=
  (firstLeaf t).length

/-- The shape of a tree with leaf contents erased: two trees have the same
structure iff their `structureOf` agree. -/
def structureOf {α : Type} (t : ArrayTree α) : ArrayTree Unit :=
  treeMap (fun _ => []) t

/-- Leaf-wise gather at a list of indices: models
`jax.tree_map(lambda x: x[resampling_idx], particles)`.  An out-of-range
index returns the default element (the source relies on the resampling
contract to keep indices in range). -/
def treeGather {α : Type} [Inhabited α] (idx : List ℕ) (t : ArrayTree α) :
    ArrayTree α :=
  treeMap (fun xs => idx.map (fun i => xs.getD i default)) t

/-- State of the SMC sampler (`SMCState` in the source): particles plus
their normalized weights. -/
structure SMCState (α : Type) where
  particles : ArrayTree α
  weights : List ℝ

/-- Additional information on the SMC step (`SMCInfo` in the source). -/
structure SMCInfo (I : Type) where
  ancestors : List ℕ
  log_likelihood_increment : ℝ
  update_info : I

/-- `init(particles)`: infer the particle count from the leading dimension
of the first leaf and attach uniform weights `1/N` (models
`jnp.ones(num_particles) / num_particles`). -/
noncomputable def init {α : Type} (particles : ArrayTree α) : SMCState α :=
  let num_particles := numParticles particles
  SMCState.mk particles
    (List.replicate num_particles ((1 : ℝ) / (num_particles : ℝ)))

/-- `jax.scipy.special.logsumexp`: over exact real arithmetic this is
`log (Σ exp xᵢ)` (the max-shift trick used for floating-point stability
is algebraically the identity on reals). -/
noncomputable def logsumexp (xs : List ℝ) : ℝ :=
  Real.log ((xs.map Real.exp).sum)

/-- Model of `jax.random.split(key, 2)` destructured into
`(updating_key, resampling_key)`: any deterministic injective-by-pair
split serves the embedding. -/
def split2 (key : ℕ) : ℕ × ℕ :=
  (2 * key + 1, 2 * key + 2)

/-- Model of `jax.random.split(key, n)` producing `n` per-particle keys:
deterministic in `key` and `n`. -/
def splitKey (key : ℕ) (n : ℕ) : List ℕ :=
  (List.range n).map (fun i => (key + 1) * (n + 1) + i)

/-- `step(rng_key, state, update_fn, weight_fn, resample_fn, num_resampled)`:
the general SMC sampling step, line-by-line from the source.
`update_fn` takes the per-particle keys and the gathered particles and
returns new particles plus opaque update information; `weight_fn` returns
one log-weight per particle; `resample_fn` takes a key, the current
weights, and the requested count and returns ancestor indices.
`num_resampled = none` models the omitted optional argument. -/
noncomputable def step {α I : Type} [Inhabited α] (rng_key : ℕ)
    (state : SMCState α)
    (update_fn : List ℕ → ArrayTree α → ArrayTree α × I)
    (weight_fn : ArrayTree α → List ℝ)
    (resample_fn : ℕ → List ℝ → ℕ → List ℕ)
    (num_resampled : Option ℕ) : SMCState α × SMCInfo I :=
  let updating_key := (split2 rng_key).1
  let resampling_key := (split2 rng_key).2
  let num_particles := state.weights.length
  let M := num_resampled.getD num_particles
  let resampling_idx := resample_fn resampling_key state.weights M
  let particles := treeGather resampling_idx state.particles
  let keys := splitKey updating_key M
  let upd := update_fn keys particles
  let new_particles := upd.1
  let update_info := upd.2
  let log_weights := weight_fn new_particles
  let logsum_weights := logsumexp log_weights
  let normalizing_constant := logsum_weights - Real.log (num_particles : ℝ)
  let weights := log_weights.map (fun lw => Real.exp (lw - logsum_weights))
  (SMCState.mk new_particles weights,
    SMCInfo.mk resampling_idx normalizing_constant update_info)

/-! ## Helper lemmas -/

theorem splitKey_length (key n : ℕ) : (splitKey key n).length = n := by
  simp [splitKey]

theorem sum_map_exp_pos (xs : List ℝ) (h : xs ≠ []) :
    0 < (xs.map Real.exp).sum := by
  apply List.sum_pos
  · intro x hx
    obtain ⟨y, _, rfl⟩ := List.mem_map.mp hx
    exact Real.exp_pos y
  · simpa using h

theorem exp_logsumexp (xs : List ℝ) (h : xs ≠ []) :
    Real.exp (logsumexp xs) = (xs.map Real.exp).sum :=
  Real.exp_log (sum_map_exp_pos xs h)

/-- Normalizing in log-space yields weights summing to one exactly,
for any nonempty list of raw log-weights. -/
theorem normalized_sum_eq_one (xs : List ℝ) (h : xs ≠ []) :
    (xs.map (fun x => Real.exp (x - logsumexp xs))).sum = 1 := by
  have hrw : (xs.map (fun x => Real.exp (x - logsumexp xs)))
      = (xs.map (fun x => Real.exp x * Real.exp (-(logsumexp xs)))) := by
    apply List.map_congr_left
    intro x _
    rw [Real.exp_sub, Real.exp_neg, div_eq_mul_inv]
  rw [hrw, List.sum_map_mul_right, Real.exp_neg, exp_logsumexp xs h,
    mul_inv_cancel₀ (ne_of_gt (sum_map_exp_pos xs h))]

/-- Log-sum-exp commutes with a uniform additive offset of the inputs. -/
theorem logsumexp_map_add (xs : List ℝ) (c : ℝ) (h : xs ≠ []) :
    logsumexp (xs.map (fun x => x + c)) = logsumexp xs + c := by
  unfold logsumexp
  have hrw : ((xs.map (fun x => x + c)).map Real.exp).sum
      = (xs.map Real.exp).sum * Real.exp c := by
    rw [List.map_map]
    have hfun : (Real.exp ∘ fun x => x + c) = fun x => Real.exp x * Real.exp c := by
      funext x
      simp [Real.exp_add]
    rw [hfun, List.sum_map_mul_right]
  rw [hrw, Real.log_mul (ne_of_gt (sum_map_exp_pos xs h)) (Real.exp_ne_zero c),
    Real.log_exp]

theorem firstLeaf_mem_leavesOf {α : Type} (t : ArrayTree α) :
    firstLeaf t ∈ leavesOf t := by
  induction t with
  | leaf xs => simp [firstLeaf, leavesOf]
  | node l r ihl ihr =>
    simp only [firstLeaf, leavesOf, List.mem_append]
    exact Or.inl ihl

/-! ## Claims -/

/-- C1: for every step invocation the log-likelihood increment of the
returned report equals `logsumexp (log_weights) - log N`, where
`log_weights` is `weight_fn` applied to the propagated particles and `N`
is the prior population size `state.weights.length` — not the resampled
count `num_resampled`. -/
theorem step_loglik_increment {α I : Type} [Inhabited α] (rng_key : ℕ)
    (state : SMCState α)
    (update_fn : List ℕ → ArrayTree α → ArrayTree α × I)
    (weight_fn : ArrayTree α → List ℝ)
    (resample_fn : ℕ → List ℝ → ℕ → List ℕ)
    (num_resampled : Option ℕ) :
    (step rng_key state update_fn weight_fn resample_fn
        num_resampled).2.log_likelihood_increment
      = logsumexp (weight_fn (update_fn
            (splitKey (split2 rng_key).1
              (num_resampled.getD state.weights.length))
            (treeGather
              (resample_fn (split2 rng_key).2 state.weights
                (num_resampled.getD state.weights.length))
              state.particles)).1)
        - Real.log (state.weights.length : ℝ) := rfl

/-- C2: the returned weights are `exp (log_weights - logsumexp log_weights)`
for `log_weights` the output of `weight_fn` on the propagated particles;
hence (given at least one particle, so that `weight_fn` returns a nonempty
vector) each weight is non-negative and the weights sum to exactly one in
real arithmetic, and a uniform additive offset of the raw log-weights
leaves them unchanged. -/
theorem step_weights_normalized {α I : Type} [Inhabited α] (rng_key : ℕ)
    (state : SMCState α)
    (update_fn : List ℕ → ArrayTree α → ArrayTree α × I)
    (weight_fn : ArrayTree α → List ℝ)
    (resample_fn : ℕ → List ℝ → ℕ → List ℕ)
    (num_resampled : Option ℕ) (c : ℝ) (P : ArrayTree α)
    (hP : P = (update_fn
        (splitKey (split2 rng_key).1 (num_resampled.getD state.weights.length))
        (treeGather
          (resample_fn (split2 rng_key).2 state.weights
            (num_resampled.getD state.weights.length))
          state.particles)).1)
    (hne : weight_fn P ≠ []) :
    (step rng_key state update_fn weight_fn resample_fn
        num_resampled).1.weights
      = (weight_fn P).map
          (fun x => Real.exp (x - logsumexp (weight_fn P))) ∧
    (∀ x ∈ (step rng_key state update_fn weight_fn resample_fn
        num_resampled).1.weights, 0 ≤ x) ∧
    (step rng_key state update_fn weight_fn resample_fn
        num_resampled).1.weights.sum = 1 ∧
    (step rng_key state update_fn (fun p => (weight_fn p).map (fun x => x + c))
        resample_fn num_resampled).1.weights
      = (step rng_key state update_fn weight_fn resample_fn
          num_resampled).1.weights := by
  subst hP
  refine ⟨rfl, ?_, ?_, ?_⟩
  · intro x hx
    simp only [step] at hx
    obtain ⟨y, _, rfl⟩ := List.mem_map.mp hx
    exact le_of_lt (Real.exp_pos _)
  · exact normalized_sum_eq_one _ hne
  · show ((_ : List ℝ).map _).map _ = _
    rw [List.map_map, logsumexp_map_add _ c hne]
    apply List.map_congr_left
    intro x _
    simp only [Function.comp_apply]
    ring_nf

/-- C4: on a particle tree whose leaves all have leading dimension
`N ≥ 1`, `init` returns the given particles with the uniform weight
vector of `N` copies of `1/N`, which sums to one. -/
theorem init_uniform {α : Type} (t : ArrayTree α) (N : ℕ) (hN : 1 ≤ N)
    (hleaves : ∀ l ∈ leavesOf t, l.length = N) :
    (init t).particles = t ∧
    (init t).weights = List.replicate N ((1 : ℝ) / (N : ℝ)) ∧
    (init t).weights.length = N ∧
    (init t).weights.sum = 1 := by
  have hfirst : numParticles t = N :=
    hleaves (firstLeaf t) (firstLeaf_mem_leavesOf t)
  refine ⟨rfl, ?_, ?_, ?_⟩
  · simp [init, hfirst]
  · simp [init, hfirst]
  · have hN0 : (N : ℝ) ≠ 0 := Nat.cast_ne_zero.mpr (by omega)
    simp [init, hfirst, List.sum_replicate, nsmul_eq_mul]
    field_simp

/-- C4 witness: a concrete two-leaf tree with two particles per leaf. -/
theorem init_uniform_witness :
    (1 ≤ 2 ∧ ∀ l ∈ leavesOf (ArrayTree.node (ArrayTree.leaf [1, 2])
        (ArrayTree.leaf [3, 4]) : ArrayTree ℕ), l.length = 2) ∧
    (init (ArrayTree.node (ArrayTree.leaf [1, 2])
        (ArrayTree.leaf [3, 4]) : ArrayTree ℕ)).weights.sum = 1 := by
  refine ⟨⟨by decide, by decide⟩, ?_⟩
  exact (init_uniform (ArrayTree.node (ArrayTree.leaf [1, 2])
    (ArrayTree.leaf [3, 4]) : ArrayTree ℕ) 2 (by decide) (by decide)).2.2.2

theorem structureOf_treeMap {α β : Type} (f : List α → List β)
    (t : ArrayTree α) : structureOf (treeMap f t) = structureOf t := by
  induction t with
  | leaf xs => rfl
  | node l r ihl ihr => simp [structureOf, treeMap] at ihl ihr ⊢; exact ⟨ihl, ihr⟩

theorem leavesOf_treeMap {α β : Type} (f : List α → List β)
    (t : ArrayTree α) : leavesOf (treeMap f t) = (leavesOf t).map f := by
  induction t with
  | leaf xs => rfl
  | node l r ihl ihr => simp [leavesOf, treeMap, ihl, ihr]

/-- C3: in every step invocation the resampling indices are drawn from the
current weights, the particle tree is gathered at those indices leaf-wise
(the identical index map applied to every leaf, preserving the tree
shape), `update_fn` runs on exactly the gathered particles, and
`weight_fn` runs on exactly `update_fn`'s output — so the gather is fully
determined before propagation reads it. -/
theorem step_phase_order {α I : Type} [Inhabited α] (rng_key : ℕ)
    (state : SMCState α)
    (update_fn : List ℕ → ArrayTree α → ArrayTree α × I)
    (weight_fn : ArrayTree α → List ℝ)
    (resample_fn : ℕ → List ℝ → ℕ → List ℕ)
    (num_resampled : Option ℕ) :
    (step rng_key state update_fn weight_fn resample_fn
        num_resampled).2.ancestors
      = resample_fn (split2 rng_key).2 state.weights
          (num_resampled.getD state.weights.length) ∧
    (step rng_key state update_fn weight_fn resample_fn
        num_resampled).1.particles
      = (update_fn
          (splitKey (split2 rng_key).1
            (num_resampled.getD state.weights.length))
          (treeGather
            (resample_fn (split2 rng_key).2 state.weights
              (num_resampled.getD state.weights.length))
            state.particles)).1 ∧
    (step rng_key state update_fn weight_fn resample_fn
        num_resampled).1.weights
      = (weight_fn ((step rng_key state update_fn weight_fn resample_fn
            num_resampled).1.particles)).map
          (fun x => Real.exp (x - logsumexp (weight_fn
            ((step rng_key state update_fn weight_fn resample_fn
              num_resampled).1.particles)))) ∧
    structureOf
        (treeGather
          (resample_fn (split2 rng_key).2 state.weights
            (num_resampled.getD state.weights.length))
          state.particles)
      = structureOf state.particles ∧
    leavesOf
        (treeGather
          (resample_fn (split2 rng_key).2 state.weights
            (num_resampled.getD state.weights.length))
          state.particles)
      = (leavesOf state.particles).map
          (fun xs =>
            (resample_fn (split2 rng_key).2 state.weights
              (num_resampled.getD state.weights.length)).map
              (fun i => xs.getD i default)) :=
  ⟨rfl, rfl, rfl, structureOf_treeMap _ _, leavesOf_treeMap _ _⟩

/-- C5 counterexample: on a tree whose two leaves have leading dimensions
2 and 3, `init` does not fail — it returns a population whose weight
vector has length 2, taken from the first leaf. -/
theorem init_mismatch_counterexample :
    (leavesOf (ArrayTree.node (ArrayTree.leaf [1, 2])
        (ArrayTree.leaf [3, 4, 5]) : ArrayTree ℕ)).map List.length = [2, 3] ∧
    init (ArrayTree.node (ArrayTree.leaf [1, 2])
        (ArrayTree.leaf [3, 4, 5]) : ArrayTree ℕ)
      = SMCState.mk (ArrayTree.node (ArrayTree.leaf [1, 2])
          (ArrayTree.leaf [3, 4, 5]))
          (List.replicate 2 ((1 : ℝ) / ((2 : ℕ) : ℝ))) :=
  ⟨rfl, rfl⟩

/-- C5 amended: `init` performs no shape validation.  On a tree whose
leaves disagree on leading dimension it still returns a population — the
given particles with a weight vector sized by the first leaf — and that
population necessarily violates the weights-match-every-leaf invariant at
some leaf. -/
theorem init_no_shape_check {α : Type} (t : ArrayTree α) (l₁ l₂ : List α)
    (h₁ : l₁ ∈ leavesOf t) (h₂ : l₂ ∈ leavesOf t)
    (hne : l₁.length ≠ l₂.length) :
    (init t).particles = t ∧
    (init t).weights.length = (firstLeaf t).length ∧
    ∃ l ∈ leavesOf t, (init t).weights.length ≠ l.length := by
  refine ⟨rfl, by simp [init, numParticles], ?_⟩
  have hlen : (init t).weights.length = (firstLeaf t).length := by
    simp [init, numParticles]
  by_cases hcase : (firstLeaf t).length = l₁.length
  · exact ⟨l₂, h₂, by rw [hlen, hcase]; exact hne⟩
  · exact ⟨l₁, h₁, by rw [hlen]; exact hcase⟩

/-- C5 amended witness: the concrete mismatched tree with leaf lengths
2 and 3. -/
theorem init_no_shape_check_witness :
    ([1, 2] ∈ leavesOf (ArrayTree.node (ArrayTree.leaf [1, 2])
        (ArrayTree.leaf [3, 4, 5]) : ArrayTree ℕ) ∧
      [3, 4, 5] ∈ leavesOf (ArrayTree.node (ArrayTree.leaf [1, 2])
        (ArrayTree.leaf [3, 4, 5]) : ArrayTree ℕ) ∧
      List.length [1, 2] ≠ List.length [3, 4, 5]) ∧
    ∃ l ∈ leavesOf (ArrayTree.node (ArrayTree.leaf [1, 2])
        (ArrayTree.leaf [3, 4, 5]) : ArrayTree ℕ),
      (init (ArrayTree.node (ArrayTree.leaf [1, 2])
        (ArrayTree.leaf [3, 4, 5]) : ArrayTree ℕ)).weights.length
        ≠ l.length :=
  ⟨⟨by decide, by decide, by decide⟩,
    (init_no_shape_check (ArrayTree.node (ArrayTree.leaf [1, 2])
      (ArrayTree.leaf [3, 4, 5]) : ArrayTree ℕ) [1, 2] [3, 4, 5]
      (by decide) (by decide) (by decide)).2.2⟩

/-- C6: step is deterministic — two invocations with identical key,
state, resampled count and injected functions produce identical output
populations and reports (the embedding is pure: all randomness flows
through the explicit key). -/
theorem step_deterministic {α I : Type} [Inhabited α] (k₁ k₂ : ℕ)
    (s₁ s₂ : SMCState α)
    (u₁ u₂ : List ℕ → ArrayTree α → ArrayTree α × I)
    (w₁ w₂ : ArrayTree α → List ℝ)
    (r₁ r₂ : ℕ → List ℝ → ℕ → List ℕ)
    (m₁ m₂ : Option ℕ)
    (hk : k₁ = k₂) (hs : s₁ = s₂) (hu : u₁ = u₂) (hw : w₁ = w₂)
    (hr : r₁ = r₂) (hm : m₁ = m₂) :
    step k₁ s₁ u₁ w₁ r₁ m₁ = step k₂ s₂ u₂ w₂ r₂ m₂ := by
  subst hk hs hu hw hr hm
  rfl

/-- C6 witness: a concrete invocation compared with itself. -/
theorem step_deterministic_witness :
    step 0 (SMCState.mk (ArrayTree.leaf [1, 2]) [(1 : ℝ) / 2, 1 / 2])
        (fun _ p => (p, ())) (fun _ => [(0 : ℝ), 0])
        (fun _ _ n => List.replicate n 0) none
      = step 0 (SMCState.mk (ArrayTree.leaf [1, 2]) [(1 : ℝ) / 2, 1 / 2])
        (fun _ p => (p, ())) (fun _ => [(0 : ℝ), 0])
        (fun _ _ n => List.replicate n 0) none :=
  step_deterministic 0 0
    (SMCState.mk (ArrayTree.leaf [1, 2]) [(1 : ℝ) / 2, 1 / 2])
    (SMCState.mk (ArrayTree.leaf [1, 2]) [(1 : ℝ) / 2, 1 / 2])
    (fun _ p => (p, ())) (fun _ p => (p, ()))
    (fun _ => [(0 : ℝ), 0]) (fun _ => [(0 : ℝ), 0])
    (fun _ _ n => List.replicate n 0) (fun _ _ n => List.replicate n 0)
    none none rfl rfl rfl rfl rfl rfl

/-- C2 witness: a two-particle population with identity update, constant
log-weights `[0, 0]` and offset `c = 1`. -/
theorem step_weights_normalized_witness :
    ([(0 : ℝ), 0] ≠ ([] : List ℝ)) ∧
    (step 0 (SMCState.mk (ArrayTree.leaf [1, 2]) [(1 : ℝ) / 2, 1 / 2])
        (fun _ p => (p, ())) (fun _ => [(0 : ℝ), 0])
        (fun _ _ n => List.replicate n 0) none).1.weights.sum = 1 :=
  ⟨by simp,
    (step_weights_normalized 0
      (SMCState.mk (ArrayTree.leaf [1, 2]) [(1 : ℝ) / 2, 1 / 2])
      (fun _ p => (p, ())) (fun _ => [(0 : ℝ), 0])
      (fun _ _ n => List.replicate n 0) none 1 _ rfl (by simp)).2.2.1⟩

/-- C7: with `num_resampled` omitted, the current population size `N` is
used in its place, so with count-preserving injected functions the output
weight vector has the same length as the input weight vector. -/
theorem step_default_preserves_size {α I : Type} [Inhabited α]
    (rng_key : ℕ) (state : SMCState α)
    (update_fn : List ℕ → ArrayTree α → ArrayTree α × I)
    (weight_fn : ArrayTree α → List ℝ)
    (resample_fn : ℕ → List ℝ → ℕ → List ℕ)
    (hr : ∀ k ws n, (resample_fn k ws n).length = n)
    (hu : ∀ keys t, numParticles (update_fn keys t).1 = keys.length)
    (hw : ∀ t, (weight_fn t).length = numParticles t) :
    (step rng_key state update_fn weight_fn resample_fn
        none).1.weights.length = state.weights.length := by
  simp only [step]
  rw [List.length_map, hw, hu, splitKey_length]
  rfl

/-- C7 witness: three particles, injected functions honoring their
count contracts. -/
theorem step_default_preserves_size_witness :
    (∀ (k : ℕ) (ws : List ℝ) (n : ℕ),
      ((fun _ _ n => List.replicate n 0) k ws n : List ℕ).length = n) ∧
    (step 0 (SMCState.mk (ArrayTree.leaf [1, 2, 3]) [(0 : ℝ), 0, 0])
        (fun keys _ => (ArrayTree.leaf (List.replicate keys.length (0 : ℕ)), ()))
        (fun t => List.replicate (numParticles t) (0 : ℝ))
        (fun _ _ n => List.replicate n 0) none).1.weights.length
      = [(0 : ℝ), 0, 0].length :=
  ⟨fun _ _ n => by simp,
    step_default_preserves_size 0
      (SMCState.mk (ArrayTree.leaf [1, 2, 3]) [(0 : ℝ), 0, 0])
      (fun keys _ => (ArrayTree.leaf (List.replicate keys.length (0 : ℕ)), ()))
      (fun t => List.replicate (numParticles t) (0 : ℝ))
      (fun _ _ n => List.replicate n 0)
      (fun _ _ n => by simp)
      (fun keys t => by simp [numParticles, firstLeaf])
      (fun t => by simp)⟩

/-- C8: the ancestors field of the report is exactly the index vector
returned by `resample_fn` on the resampling stream, the current weights
and the resampled count; hence when that call honors the resampling
contract, ancestors has length `num_resampled` and entries below the
prior population size. -/
theorem step_ancestors_exact {α I : Type} [Inhabited α] (rng_key : ℕ)
    (state : SMCState α)
    (update_fn : List ℕ → ArrayTree α → ArrayTree α × I)
    (weight_fn : ArrayTree α → List ℝ)
    (resample_fn : ℕ → List ℝ → ℕ → List ℕ)
    (num_resampled : Option ℕ) (M N : ℕ)
    (hM : M = num_resampled.getD state.weights.length)
    (hN : N = state.weights.length)
    (hlen : (resample_fn (split2 rng_key).2 state.weights M).length = M)
    (hrange : ∀ i ∈ resample_fn (split2 rng_key).2 state.weights M, i < N) :
    (step rng_key state update_fn weight_fn resample_fn
        num_resampled).2.ancestors
      = resample_fn (split2 rng_key).2 state.weights M ∧
    (step rng_key state update_fn weight_fn resample_fn
        num_resampled).2.ancestors.length = M ∧
    ∀ i ∈ (step rng_key state update_fn weight_fn resample_fn
        num_resampled).2.ancestors, i < N := by
  subst hM hN
  exact ⟨rfl, hlen, hrange⟩

/-- C8 witness: a two-particle state with a resampler returning `[0, 0]`. -/
theorem step_ancestors_exact_witness :
    ((List.replicate 2 0 : List ℕ).length = 2 ∧
      ∀ i ∈ (List.replicate 2 0 : List ℕ), i < 2) ∧
    ∀ i ∈ (step 0 (SMCState.mk (ArrayTree.leaf [1, 2]) [(1 : ℝ) / 2, 1 / 2])
        (fun _ p => (p, ())) (fun _ => [(0 : ℝ), 0])
        (fun _ _ n => List.replicate n 0) none).2.ancestors, i < 2 :=
  ⟨⟨by decide, by decide⟩,
    (step_ancestors_exact 0
      (SMCState.mk (ArrayTree.leaf [1, 2]) [(1 : ℝ) / 2, 1 / 2])
      (fun _ p => (p, ())) (fun _ => [(0 : ℝ), 0])
      (fun _ _ n => List.replicate n 0) none 2 2 rfl rfl
      (by simp) (by decide)).2.2⟩

/-- C9: waste-free mode — with `num_resampled = M < N` and an update
function expanding its inputs to `N` particles (one log-weight per
particle), step completes and returns a population of size `N`: the core
ties the output size to the injected functions, not to `num_resampled`. -/
theorem step_waste_free {α I : Type} [Inhabited α] (rng_key : ℕ)
    (state : SMCState α)
    (update_fn : List ℕ → ArrayTree α → ArrayTree α × I)
    (weight_fn : ArrayTree α → List ℝ)
    (resample_fn : ℕ → List ℝ → ℕ → List ℕ)
    (M N : ℕ) (hMN : M < N) (hN : state.weights.length = N)
    (hu : ∀ keys t, numParticles (update_fn keys t).1 = N)
    (hw : ∀ t, (weight_fn t).length = numParticles t) :
    (step rng_key state update_fn weight_fn resample_fn
        (some M)).1.weights.length = N := by
  simp only [step]
  rw [List.length_map, hw, hu]

/-- C9 witness: `M = 2 < N = 3`, update expanding every input to three
particles. -/
theorem step_waste_free_witness :
    (2 < 3 ∧ [(0 : ℝ), 0, 0].length = 3) ∧
    (step 0 (SMCState.mk (ArrayTree.leaf [1, 2, 3]) [(0 : ℝ), 0, 0])
        (fun _ _ => (ArrayTree.leaf [(0 : ℕ), 0, 0], ()))
        (fun t => List.replicate (numParticles t) (0 : ℝ))
        (fun _ _ n => List.replicate n 0) (some 2)).1.weights.length = 3 :=
  ⟨⟨by decide, by simp⟩,
    step_waste_free 0
      (SMCState.mk (ArrayTree.leaf [1, 2, 3]) [(0 : ℝ), 0, 0])
      (fun _ _ => (ArrayTree.leaf [(0 : ℕ), 0, 0], ()))
      (fun t => List.replicate (numParticles t) (0 : ℝ))
      (fun _ _ n => List.replicate n 0) 2 3 (by decide) (by simp)
      (fun keys t => by simp [numParticles, firstLeaf])
      (fun t => by simp)⟩

/-- Two particle trees of the same shape agree at a set of indices when
every leaf pair yields the same element at each of those indices. -/
def agreeOn {α : Type} [Inhabited α] (idx : List ℕ) :
    ArrayTree α → ArrayTree α → Prop
  | .leaf xs, .leaf ys => ∀ i ∈ idx, xs.getD i default = ys.getD i default
  | .node l₁ r₁, .node l₂ r₂ => agreeOn idx l₁ l₂ ∧ agreeOn idx r₁ r₂
  | _, _ => False

/-- Gathering reads the particle tree only at the gathered indices:
trees agreeing there gather identically. -/
theorem treeGather_congr {α : Type} [Inhabited α] (idx : List ℕ)
    (t₁ t₂ : ArrayTree α) (h : agreeOn idx t₁ t₂) :
    treeGather idx t₁ = treeGather idx t₂ := by
  induction t₁ generalizing t₂ with
  | leaf xs =>
    cases t₂ with
    | leaf ys =>
      simp only [treeGather, treeMap]
      exact congrArg ArrayTree.leaf (List.map_congr_left h)
    | node _ _ => exact absurd h (by simp [agreeOn])
  | node l r ihl ihr =>
    cases t₂ with
    | leaf _ => exact absurd h (by simp [agreeOn])
    | node l₂ r₂ =>
      obtain ⟨hl, hr⟩ := h
      simp only [treeGather, treeMap] at ihl ihr ⊢
      rw [ihl l₂ hl, ihr r₂ hr]

/-- C10: particles never selected by resampling do not influence the
output — two states with the same weights whose particle trees agree at
every resampled index produce identical populations and reports. -/
theorem step_unselected_irrelevant {α I : Type} [Inhabited α]
    (rng_key : ℕ) (s₁ s₂ : SMCState α)
    (update_fn : List ℕ → ArrayTree α → ArrayTree α × I)
    (weight_fn : ArrayTree α → List ℝ)
    (resample_fn : ℕ → List ℝ → ℕ → List ℕ)
    (num_resampled : Option ℕ)
    (hweights : s₁.weights = s₂.weights)
    (hagree : agreeOn
      (resample_fn (split2 rng_key).2 s₁.weights
        (num_resampled.getD s₁.weights.length))
      s₁.particles s₂.particles) :
    step rng_key s₁ update_fn weight_fn resample_fn num_resampled
      = step rng_key s₂ update_fn weight_fn resample_fn num_resampled := by
  obtain ⟨p₁, ws₁⟩ := s₁
  obtain ⟨p₂, ws₂⟩ := s₂
  simp only at hweights hagree
  subst hweights
  simp only [step]
  rw [treeGather_congr _ _ _ hagree]

/-- C10 witness: two states with weights `[1/2, 1/2]` whose trees agree
at the resampled index 0 but differ at index 1. -/
theorem step_unselected_irrelevant_witness :
    ([(1 : ℝ) / 2, 1 / 2] = [(1 : ℝ) / 2, 1 / 2] ∧
      agreeOn (List.replicate 2 0)
        (ArrayTree.leaf [5, 6] : ArrayTree ℕ) (ArrayTree.leaf [5, 7])) ∧
    step 0 (SMCState.mk (ArrayTree.leaf [5, 6] : ArrayTree ℕ)
        [(1 : ℝ) / 2, 1 / 2])
        (fun _ p => (p, ())) (fun _ => [(0 : ℝ), 0])
        (fun _ _ n => List.replicate n 0) none
      = step 0 (SMCState.mk (ArrayTree.leaf [5, 7]) [(1 : ℝ) / 2, 1 / 2])
        (fun _ p => (p, ())) (fun _ => [(0 : ℝ), 0])
        (fun _ _ n => List.replicate n 0) none :=
  ⟨⟨rfl, by simp only [agreeOn]; decide⟩,
    step_unselected_irrelevant 0
      (SMCState.mk (ArrayTree.leaf [5, 6]) [(1 : ℝ) / 2, 1 / 2])
      (SMCState.mk (ArrayTree.leaf [5, 7]) [(1 : ℝ) / 2, 1 / 2])
      (fun _ p => (p, ())) (fun _ => [(0 : ℝ), 0])
      (fun _ _ n => List.replicate n 0) none rfl
      (by simp only [agreeOn]; decide)⟩

end BlackjaxSMC
